import Mathlib

/-!
Verification of the crawl-extract-chunk-index pipeline of `src/rag_builder.py`
(CADomatic).  Python strings are modelled as `List Char`, the HTTP layer as an
oracle `FetchOracle` mapping a URL to `none` (fetch or parse failure) or to the
page content (raw visible text plus the already-resolved outbound links).  The
crawl loop is fuel-indexed so that every run prefix is a value of the model.
-/

set_option maxHeartbeats 1000000
set_option maxRecDepth 8000

abbrev Str := List Char

/-- `BASE_URL_WIKI` from `rag_builder.py`. -/
def BASE_URL_WIKI : Str := "https://wiki.freecad.org/Power_users_hub".toList

/-- `BASE_URL_GITHUB` from `rag_builder.py`. -/
def BASE_URL_GITHUB : Str := "https://github.com/shaise/FreeCAD_FastenersWB".toList

/-- `DOMAIN_WHITELIST` from `rag_builder.py`. -/
def DOMAIN_WHITELIST : List Str :=
  ["https://wiki.freecad.org", "https://github.com/shaise"].map String.toList

/-- `LANG_IDENTIFIERS` from `rag_builder.py`. -/
def LANG_IDENTIFIERS : List Str :=
  ["/id", "/de", "/tr", "/es", "/fr", "/hr", "/it", "/pl",
   "/pt", "/pt-br", "/ro", "/fi", "/sv", "/cs", "/ru", "/zh-cn",
   "/zh-tw", "/ja", "/ko"].map String.toList

/-- Python `url.lower()` (ASCII case folding suffices for the URLs involved). -/
def lowerStr (s : Str) : Str := s.map Char.toLower

/-- Python `pat in s` substring containment on strings. -/
def containsSub (pat : Str) : Str → Bool
  | [] => pat.isEmpty
  | c :: rest => pat.isPrefixOf (c :: rest) || containsSub pat rest

/-- `is_excluded_url` from `rag_builder.py`: language filtering guarded by a
`"wiki.freecad.org" in url_lower` substring test, then asset / edit markers. -/
def is_excluded_url (url : Str) : Bool :=
  let url_lower := lowerStr url
  if containsSub "wiki.freecad.org".toList url_lower &&
      LANG_IDENTIFIERS.any (fun marker => containsSub marker url_lower) then
    true
  else
    containsSub ".jpg".toList url_lower ||
    containsSub ".png".toList url_lower ||
    containsSub "edit&section".toList url_lower

/-- Python `str.strip()` whitespace class (ASCII part). -/
def isPySpace (c : Char) : Bool :=
  c = ' ' || c = '\t' || c = '\n' || c = '\r' || c = '\x0b' || c = '\x0c'

/-- Python `str.splitlines()` on the newline-separated text produced by
`soup.get_text(separator="\n")`: split at each newline, no trailing empty
piece for a trailing newline, and `[]` on the empty string. -/
def splitlines : Str → List Str
  | [] => []
  | c :: rest =>
    if c = '\n' then [] :: splitlines rest
    else
      match splitlines rest with
      | [] => [[c]]
      | l :: ls => (c :: l) :: ls

/-- Python `str.strip()`: drop leading and trailing whitespace. -/
def strip (s : Str) : Str :=
  ((s.dropWhile isPySpace).reverse.dropWhile isPySpace).reverse

/-- The list comprehension
`[line.strip() for line in text.splitlines() if line.strip()]` of line 65. -/
def clean_lines (raw : Str) : List Str :=
  ((splitlines raw).map strip).filter (fun l => !l.isEmpty)

/-- Line 65: `"\n".join([line.strip() for line in text.splitlines() if line.strip()])`. -/
def clean_text (raw : Str) : Str :=
  List.intercalate ['\n'] (clean_lines raw)

/-- Result of one successful fetch-and-parse: the raw visible text of the page
(after structural tag removal) and the outbound links, already resolved to
absolute URLs (`urljoin` is part of the environment, not modelled). -/
structure Fetched where
  text : Str
  links : List Str
deriving DecidableEq

/-- The HTTP boundary: `none` models an exception from `requests.get`,
`raise_for_status` or the parse; `some` a successful fetch. -/
abbrev FetchOracle := Str → Option Fetched

/-- A Page Record `{"url": url, "text": clean}` (line 66). -/
structure PageRec where
  url : Str
  text : Str
deriving DecidableEq

/-- Observable events of the crawl loop: the `print(f"Fetching: {url}")` of
line 56 (one per HTTP GET attempt) and the `print(f"Error fetching {url}...")`
of line 75. -/
inductive CrawlEvent where
  | fetching (url : Str)
  | fetchError (url : Str)
deriving DecidableEq

/-- The loop state of `crawl_wiki`: pending queue, visited set (kept as the
insertion-ordered list of a Python set receiving distinct elements), collected
pages and emitted events. -/
structure CrawlSt where
  to_visit : List Str
  visited : List Str
  pages : List PageRec
  events : List CrawlEvent
deriving DecidableEq

/-- Lines 69-73: keep a discovered link when it starts with a whitelisted
domain, is not yet visited and is not excluded; duplicates inside the queue
are not removed. -/
def enqueueLinks (visited : List Str) (links : List Str) : List Str :=
  links.filter (fun full =>
    DOMAIN_WHITELIST.any (fun domain => domain.isPrefixOf full) &&
    !(decide (full ∈ visited)) && !(is_excluded_url full))

/-- One iteration body of the `while` loop of `crawl_wiki` (lines 52-75) after
the url has been popped from the front of the queue. -/
def crawlStep (oracle : FetchOracle) (url : Str) (rest : List Str)
    (visited : List Str) (pages : List PageRec) (events : List CrawlEvent) :
    CrawlSt :=
  if url ∈ visited ∨ is_excluded_url url = true then
    ⟨rest, visited, pages, events⟩
  else
    match oracle url with
    | none =>
      ⟨rest, visited, pages, events ++ [.fetching url, .fetchError url]⟩
    | some f =>
      let visited2 := visited ++ [url]
      ⟨rest ++ enqueueLinks visited2 f.links, visited2,
        pages ++ [⟨url, clean_text f.text⟩],
        events ++ [.fetching url]⟩

/-- The `while to_visit and len(visited) < max_pages` loop of `crawl_wiki`,
fuel-indexed; the boolean is `true` iff the loop exited normally (guard
failed) within the given fuel. -/
def crawlLoop (oracle : FetchOracle) (max_pages : Nat) :
    Nat → CrawlSt → CrawlSt × Bool
  | 0, st => (st, decide (st.to_visit = [] ∨ max_pages ≤ st.visited.length))
  | fuel + 1, st =>
    match st.to_visit with
    | [] => (st, true)
    | url :: rest =>
      if max_pages ≤ st.visited.length then (st, true)
      else
        crawlLoop oracle max_pages fuel
          (crawlStep oracle url rest st.visited st.pages st.events)

/-- `crawl_wiki(start_url, max_pages)` (lines 46-78): run the loop from the
initial state `to_visit = [start_url]`, `visited = {}`, `pages = []`. -/
def crawl_wiki (oracle : FetchOracle) (fuel : Nat) (start_url : Str)
    (max_pages : Nat) : CrawlSt × Bool :=
  crawlLoop oracle max_pages fuel ⟨[start_url], [], [], []⟩

/-- Fuel-indexed worker for `chunkText`; fuel `t.length` always suffices
because each step consumes at least one character. -/
def chunkTextFuel (chunk_size overlap : Nat) : Nat → Str → List Str
  | 0, t => [t]
  | fuel + 1, t =>
    if t.length < chunk_size ∨ chunk_size ≤ overlap then [t]
    else t.take chunk_size ::
      chunkTextFuel chunk_size overlap fuel (t.drop (chunk_size - overlap))

/-- Modelled from the spec: the Chunker of spec 4.5.  In the source the
chunking is performed by langchain's `RecursiveCharacterTextSplitter`
(line 93), whose implementation is not code of this repository; the spec's
contract is a fixed window walk: consecutive slices of `chunk_size`
characters advancing by `chunk_size - overlap`, the remainder shorter than
one window becoming the final (possibly shorter) chunk. -/
def chunkText (chunk_size overlap : Nat) (t : Str) : List Str :=
  chunkTextFuel chunk_size overlap t.length t

/-- A Chunk Record: slice text plus the `{"source": url}` metadata (lines
91, 94). -/
structure ChunkRec where
  text : Str
  source : Str
deriving DecidableEq

/-- Modelled from the spec: `splitter.create_documents(texts, metadatas)`
(line 94, langchain, not code of this repository) chunks each page
independently, tagging every chunk with that page's source url, with the
pipeline's `chunk_size=1000, chunk_overlap=150` (line 93). -/
def create_documents (pages : List PageRec) : List ChunkRec :=
  (pages.map (fun p => (chunkText 1000 150 p.text).map
    (fun c => ChunkRec.mk c p.url))).flatten

/-- Observable outcome of `build_vectorstore` (lines 81-107): the aggregated
pages, whether the abort message of line 87 was printed, the chunk list when
chunking ran (`none` when it did not), and whether `save_local` ran. -/
structure BuildResult where
  pages : List PageRec
  abort_logged : Bool
  docs : Option (List ChunkRec)
  saved : Bool
deriving DecidableEq

/-- `build_vectorstore()` (lines 81-107): crawl both roots, abort on an empty
corpus, otherwise chunk and persist.  Embedding and FAISS indexing are the
external collaborators; their completion is observed through `saved`. -/
def build_vectorstore (oracle : FetchOracle) (fuel : Nat) : BuildResult :=
  let wiki_pages := (crawl_wiki oracle fuel BASE_URL_WIKI 2000).1.pages
  let github_pages := (crawl_wiki oracle fuel BASE_URL_GITHUB 450).1.pages
  let pages := wiki_pages ++ github_pages
  if pages = [] then ⟨pages, true, none, false⟩
  else ⟨pages, false, some (create_documents pages), true⟩

/-- Re-assembly of a chunk list after trimming the declared overlap from the
front of each chunk after the first. -/
def reassemble (overlap : Nat) : List Str → Str
  | [] => []
  | c :: cs => c ++ (cs.map (fun d => d.drop overlap)).flatten

/-- Number of fetch attempts (HTTP GETs) of `u` recorded in an event list. -/
def fetchCount (events : List CrawlEvent) (u : Str) : Nat :=
  events.countP (fun e =>
    match e with
    | .fetching v => decide (v = u)
    | _ => false)

/-- Claim vocabulary: the URL belongs to the wiki domain (it starts, case
insensitively, with the whitelisted wiki root). -/
def wikiDomain (url : Str) : Bool :=
  "https://wiki.freecad.org".toList.isPrefixOf (lowerStr url)

/-- Claim vocabulary: the URL belongs to the code-hosting domain (it starts,
case insensitively, with the whitelisted github root). -/
def githubDomain (url : Str) : Bool :=
  "https://github.com/shaise".toList.isPrefixOf (lowerStr url)

/-- Claim vocabulary: the URL contains one of the configured language-path
markers (case insensitively). -/
def hasLangMarker (url : Str) : Bool :=
  LANG_IDENTIFIERS.any (fun marker => containsSub marker (lowerStr url))

/-- Claim vocabulary: the URL contains one of the asset / edit-action markers
of `is_excluded_url`. -/
def hasAssetMarker (url : Str) : Bool :=
  containsSub ".jpg".toList (lowerStr url) ||
  containsSub ".png".toList (lowerStr url) ||
  containsSub "edit&section".toList (lowerStr url)

/-- Concrete wiki-domain test URL. -/
def urlA : Str := "https://wiki.freecad.org/A".toList

/-- A second concrete wiki-domain test URL. -/
def urlB : Str := "https://wiki.freecad.org/B".toList

/-- Oracle on which every fetch fails. -/
def oracleFail : FetchOracle := fun _ => none

/-- Oracle: the root page links twice to `urlB`, whose fetch then fails. -/
def oracleDup : FetchOracle := fun u =>
  if u = urlA then some ⟨[], [urlB, urlB]⟩ else none

/-! ## Chunker lemmas -/

theorem chunkTextFuel_nil (chunk_size overlap : Nat) :
    ∀ fuel, chunkTextFuel chunk_size overlap fuel [] = [[]] := by
  intro fuel
  cases fuel with
  | zero => rfl
  | succ fuel =>
    simp only [chunkTextFuel]
    split
    · rfl
    · rename_i hneg
      push_neg at hneg
      simp only [List.length_nil] at hneg
      omega

theorem chunkTextFuel_eq_of_le (chunk_size overlap : Nat) :
    ∀ n m (t : Str), t.length ≤ n → t.length ≤ m →
      chunkTextFuel chunk_size overlap n t = chunkTextFuel chunk_size overlap m t := by
  intro n
  induction n with
  | zero =>
    intro m t hn _
    have ht : t = [] := List.eq_nil_of_length_eq_zero (Nat.le_zero.mp hn)
    subst ht
    rw [chunkTextFuel_nil, chunkTextFuel_nil]
  | succ n ihn =>
    intro m t hn hm
    cases m with
    | zero =>
      have ht : t = [] := List.eq_nil_of_length_eq_zero (Nat.le_zero.mp hm)
      subst ht
      rw [chunkTextFuel_nil, chunkTextFuel_nil]
    | succ m =>
      by_cases hcond : t.length < chunk_size ∨ chunk_size ≤ overlap
      · simp only [chunkTextFuel, if_pos hcond]
      · push_neg at hcond
        obtain ⟨h1, h2⟩ := hcond
        have hcond2 : ¬(t.length < chunk_size ∨ chunk_size ≤ overlap) := by omega
        simp only [chunkTextFuel, if_neg hcond2, List.cons.injEq, true_and]
        exact ihn m (t.drop (chunk_size - overlap))
          (by simp only [List.length_drop]; omega)
          (by simp only [List.length_drop]; omega)

theorem chunkText_step (chunk_size overlap : Nat) (t : Str) :
    chunkText chunk_size overlap t =
      if t.length < chunk_size ∨ chunk_size ≤ overlap then [t]
      else t.take chunk_size ::
        chunkText chunk_size overlap (t.drop (chunk_size - overlap)) := by
  by_cases hcond : t.length < chunk_size ∨ chunk_size ≤ overlap
  · rw [if_pos hcond]
    unfold chunkText
    cases hl : t.length with
    | zero => rfl
    | succ k => simp [chunkTextFuel, hcond]
  · rw [if_neg hcond]
    push_neg at hcond
    obtain ⟨h1, h2⟩ := hcond
    unfold chunkText
    cases hl : t.length with
    | zero => omega
    | succ k =>
      have hcond2 : ¬(t.length < chunk_size ∨ chunk_size ≤ overlap) := by omega
      simp only [chunkTextFuel, if_neg hcond2, List.cons.injEq, true_and]
      exact chunkTextFuel_eq_of_le chunk_size overlap k (t.drop (chunk_size - overlap)).length
        (t.drop (chunk_size - overlap))
        (by simp only [List.length_drop]; omega)
        le_rfl

theorem chunkText_flatten_drop (chunk_size overlap : Nat)
    (ho : overlap < chunk_size) :
    ∀ (n : Nat) (t : Str), t.length ≤ n →
      ((chunkText chunk_size overlap t).map
        (fun d => d.drop overlap)).flatten = t.drop overlap := by
  intro n
  induction n with
  | zero =>
    intro t hn
    have ht : t = [] := List.eq_nil_of_length_eq_zero (Nat.le_zero.mp hn)
    subst ht
    rw [chunkText_step, if_pos (by simp only [List.length_nil]; omega)]
    simp
  | succ n ihn =>
    intro t ht
    rw [chunkText_step]
    by_cases hcond : t.length < chunk_size ∨ chunk_size ≤ overlap
    · rw [if_pos hcond]
      simp
    · rw [if_neg hcond]
      push_neg at hcond
      obtain ⟨h1, h2⟩ := hcond
      simp only [List.map_cons, List.flatten_cons]
      rw [ihn (t.drop (chunk_size - overlap)) (by simp only [List.length_drop]; omega)]
      rw [List.drop_drop]
      have hco : chunk_size - overlap + overlap = chunk_size := by omega
      rw [hco]
      have hoc : overlap + (chunk_size - overlap) = chunk_size := by omega
      have h3 : (t.drop overlap).take (chunk_size - overlap) =
          (t.take chunk_size).drop overlap := by
        rw [List.take_drop, hoc]
      have h4 : (t.drop overlap).drop (chunk_size - overlap) = t.drop chunk_size := by
        rw [List.drop_drop, hoc]
      rw [← h3, ← h4, List.take_append_drop]

theorem chunkText_getElem? (chunk_size overlap : Nat) (ho : overlap < chunk_size) :
    ∀ (n : Nat) (t : Str), t.length ≤ n → ∀ (i : Nat) (s : Str),
      (chunkText chunk_size overlap t)[i]? = some s →
      s = (t.drop (i * (chunk_size - overlap))).take chunk_size := by
  intro n
  induction n with
  | zero =>
    intro t hn i s hs
    have ht : t = [] := List.eq_nil_of_length_eq_zero (Nat.le_zero.mp hn)
    subst ht
    rw [chunkText_step, if_pos (by simp only [List.length_nil]; omega)] at hs
    cases i with
    | zero => simp_all
    | succ i => simp at hs
  | succ n ihn =>
    intro t ht i s hs
    rw [chunkText_step] at hs
    by_cases hcond : t.length < chunk_size ∨ chunk_size ≤ overlap
    · rw [if_pos hcond] at hs
      have hlt : t.length < chunk_size := by omega
      cases i with
      | zero =>
        simp only [List.getElem?_cons_zero, Option.some.injEq] at hs
        subst hs
        rw [Nat.zero_mul, List.drop_zero, List.take_of_length_le (Nat.le_of_lt hlt)]
      | succ i => simp at hs
    · rw [if_neg hcond] at hs
      push_neg at hcond
      obtain ⟨h1, h2⟩ := hcond
      cases i with
      | zero =>
        simp only [List.getElem?_cons_zero, Option.some.injEq] at hs
        subst hs
        rw [Nat.zero_mul, List.drop_zero]
      | succ i =>
        simp only [List.getElem?_cons_succ] at hs
        have := ihn (t.drop (chunk_size - overlap))
          (by simp only [List.length_drop]; omega) i s hs
        rw [this, List.drop_drop]
        congr 2
        ring

theorem chunkText_len2400 (t : Str) (h : t.length = 2400) :
    chunkText 1000 150 t = [t.take 1000, (t.drop 850).take 1000, t.drop 1700] := by
  have e1 : (t.drop 850).length = 1550 := by simp [h]
  have e2 : (t.drop 1700).length = 700 := by simp [h]
  rw [chunkText_step, if_neg (by omega)]
  norm_num
  rw [chunkText_step, if_neg (by omega)]
  norm_num
  rw [chunkText_step, if_pos (by omega)]


/-! ## Crawl loop lemmas -/

theorem crawlLoop_nil_queue (oracle : FetchOracle) (max_pages : Nat) :
    ∀ fuel (st : CrawlSt), st.to_visit = [] →
      crawlLoop oracle max_pages fuel st = (st, true) := by
  intro fuel st h
  cases fuel with
  | zero => simp [crawlLoop, h]
  | succ fuel => simp [crawlLoop, h]

theorem crawlLoop_succ_cons (oracle : FetchOracle) (max_pages fuel : Nat)
    (url : Str) (rest visited : List Str) (pages : List PageRec)
    (events : List CrawlEvent) (h : visited.length < max_pages) :
    crawlLoop oracle max_pages (fuel + 1) ⟨url :: rest, visited, pages, events⟩ =
      crawlLoop oracle max_pages fuel
        (crawlStep oracle url rest visited pages events) := by
  simp [crawlLoop, Nat.not_le.mpr h]

theorem crawlStep_skip (oracle : FetchOracle) (url : Str) (rest visited : List Str)
    (pages : List PageRec) (events : List CrawlEvent)
    (h : url ∈ visited ∨ is_excluded_url url = true) :
    crawlStep oracle url rest visited pages events = ⟨rest, visited, pages, events⟩ := by
  simp [crawlStep, h]

theorem crawlStep_fail (oracle : FetchOracle) (url : Str) (rest visited : List Str)
    (pages : List PageRec) (events : List CrawlEvent)
    (h : ¬(url ∈ visited ∨ is_excluded_url url = true)) (hf : oracle url = none) :
    crawlStep oracle url rest visited pages events =
      ⟨rest, visited, pages, events ++ [.fetching url, .fetchError url]⟩ := by
  simp [crawlStep, h, hf]

theorem crawlStep_success (oracle : FetchOracle) (url : Str) (rest visited : List Str)
    (pages : List PageRec) (events : List CrawlEvent) (f : Fetched)
    (h : ¬(url ∈ visited ∨ is_excluded_url url = true)) (hf : oracle url = some f) :
    crawlStep oracle url rest visited pages events =
      ⟨rest ++ enqueueLinks (visited ++ [url]) f.links, visited ++ [url],
        pages ++ [⟨url, clean_text f.text⟩], events ++ [.fetching url]⟩ := by
  simp [crawlStep, h, hf]

/-! ## Claims C2 and C8: the chunker -/

/-- C2: for any page text `t`, chunk size and overlap with `overlap <
chunk_size`, the chunker yields consecutive slices of length `chunk_size`
advancing by `chunk_size - overlap` per step (final chunk possibly shorter),
and re-concatenating the chunks after trimming the declared overlap from the
front of each chunk after the first reproduces `t` exactly. -/
theorem c2_chunk_slices_and_reassembly (chunk_size overlap : Nat) (t : Str)
    (ho : overlap < chunk_size) :
    (∀ (i : Nat) (s : Str), (chunkText chunk_size overlap t)[i]? = some s →
        s = (t.drop (i * (chunk_size - overlap))).take chunk_size) ∧
    reassemble overlap (chunkText chunk_size overlap t) = t := by
  constructor
  · intro i s hs
    exact chunkText_getElem? chunk_size overlap ho t.length t le_rfl i s hs
  · rw [chunkText_step]
    by_cases hcond : t.length < chunk_size ∨ chunk_size ≤ overlap
    · rw [if_pos hcond]
      simp [reassemble]
    · rw [if_neg hcond]
      push_neg at hcond
      obtain ⟨h1, h2⟩ := hcond
      simp only [reassemble]
      rw [chunkText_flatten_drop chunk_size overlap ho
        (t.drop (chunk_size - overlap)).length (t.drop (chunk_size - overlap)) le_rfl]
      rw [List.drop_drop]
      have hco : chunk_size - overlap + overlap = chunk_size := by omega
      rw [hco, List.take_append_drop]

/-- Witness for C2 at `chunk_size = 3`, `overlap = 1`, `t = "abcde"`. -/
theorem c2_witness :
    (1 : Nat) < 3 ∧
    reassemble 1 (chunkText 3 1 "abcde".toList) = "abcde".toList :=
  ⟨by decide, (c2_chunk_slices_and_reassembly 3 1 "abcde".toList (by decide)).2⟩

/-- C8 counterexample: on a page text of length 2400 the chunker with
`chunk_size = 1000`, `overlap = 150` produces chunks of lengths
1000, 1000, 700 — not 1000, 1000, 550 as the claim states. -/
theorem c8_counterexample :
    (chunkText 1000 150 (List.replicate 2400 'a')).map List.length =
      [1000, 1000, 700] ∧
    (chunkText 1000 150 (List.replicate 2400 'a')).map List.length ≠
      [1000, 1000, 550] := by
  have h := chunkText_len2400 (List.replicate 2400 'a') (by simp)
  rw [h]
  constructor
  · simp
  · simp

/-- C8 amended: a page text of length 2400 with `chunk_size = 1000`,
`overlap = 150` produces exactly 3 chunks of lengths 1000, 1000 and 700
(the final chunk starts 150 characters before the end of the second, so its
length is 2400 - 1700 = 700, not 550), and the trailing 150 characters of
each chunk reappear as the leading 150 characters of the next. -/
theorem c8_chunks_2400 (t : Str) (h : t.length = 2400) :
    chunkText 1000 150 t = [t.take 1000, (t.drop 850).take 1000, t.drop 1700] ∧
    (chunkText 1000 150 t).map List.length = [1000, 1000, 700] ∧
    (t.take 1000).drop 850 = ((t.drop 850).take 1000).take 150 ∧
    ((t.drop 850).take 1000).drop 850 = (t.drop 1700).take 150 := by
  refine ⟨chunkText_len2400 t h, ?_, ?_, ?_⟩
  · rw [chunkText_len2400 t h]
    simp [h]
  · rw [List.take_take]
    norm_num
    rw [List.take_drop]
  · rw [List.drop_take]
    norm_num

/-- Witness for C8 at the all-'a' text of length 2400. -/
theorem c8_witness :
    (List.replicate 2400 'a' : Str).length = 2400 ∧
    (chunkText 1000 150 (List.replicate 2400 'a')).map List.length =
      [1000, 1000, 700] :=
  ⟨by simp, (c8_chunks_2400 (List.replicate 2400 'a') (by simp)).2.1⟩

theorem crawlLoop_succ_budget (oracle : FetchOracle) (max_pages fuel : Nat)
    (url : Str) (rest visited : List Str) (pages : List PageRec)
    (events : List CrawlEvent) (h : max_pages ≤ visited.length) :
    crawlLoop oracle max_pages (fuel + 1) ⟨url :: rest, visited, pages, events⟩ =
      (⟨url :: rest, visited, pages, events⟩, true) := by
  simp [crawlLoop, h]

/-! ## Claim C5: single-page failures are logged and skipped -/

/-- C5: a failure while fetching or parsing a page is caught inside the loop,
an error event naming the offending URL is logged, the page contributes no
Page Record, and the crawl continues with the remaining queue unchanged. -/
theorem c5_failure_logged_and_continues (oracle : FetchOracle)
    (max_pages fuel : Nat) (url : Str) (rest visited : List Str)
    (pages : List PageRec) (events : List CrawlEvent)
    (hfail : oracle url = none) (hnv : url ∉ visited)
    (hne : is_excluded_url url = false) (hb : visited.length < max_pages) :
    crawlLoop oracle max_pages (fuel + 1) ⟨url :: rest, visited, pages, events⟩ =
      crawlLoop oracle max_pages fuel
        ⟨rest, visited, pages,
          events ++ [.fetching url, .fetchError url]⟩ := by
  rw [crawlLoop_succ_cons oracle max_pages fuel url rest visited pages events hb]
  rw [crawlStep_fail oracle url rest visited pages events (by simp [hnv, hne]) hfail]

/-- Witness for C5: a failing fetch of `urlA` from the initial state. -/
theorem c5_witness :
    oracleFail urlA = none ∧ urlA ∉ ([] : List Str) ∧
    is_excluded_url urlA = false ∧ ([] : List Str).length < 5 ∧
    crawlLoop oracleFail 5 4 ⟨[urlA], [], [], []⟩ =
      crawlLoop oracleFail 5 3
        ⟨[], [], [], [] ++ [.fetching urlA, .fetchError urlA]⟩ :=
  ⟨rfl, by decide, by decide, by decide,
    c5_failure_logged_and_continues oracleFail 5 3 urlA [] [] [] []
      rfl (by decide) (by decide) (by decide)⟩

/-! ## Claim C10: an excluded start URL is never fetched -/

/-- C10: when the start URL itself matches the exclusion filter, the crawl
performs no fetch at all (no events) and returns no Page Records: the filter
is re-applied at dequeue time, so even the root is subject to it. -/
theorem c10_excluded_root_no_fetch (oracle : FetchOracle) (fuel : Nat)
    (start_url : Str) (max_pages : Nat)
    (hex : is_excluded_url start_url = true) :
    (crawl_wiki oracle fuel start_url max_pages).1.pages = [] ∧
    (crawl_wiki oracle fuel start_url max_pages).1.events = [] := by
  unfold crawl_wiki
  cases fuel with
  | zero => exact ⟨rfl, rfl⟩
  | succ fuel =>
    by_cases hb : max_pages ≤ ([] : List Str).length
    · rw [crawlLoop_succ_budget oracle max_pages fuel start_url [] [] [] [] hb]
      exact ⟨rfl, rfl⟩
    · rw [crawlLoop_succ_cons oracle max_pages fuel start_url [] [] [] []
        (Nat.not_le.mp hb)]
      rw [crawlStep_skip oracle start_url [] [] [] [] (Or.inr hex)]
      rw [crawlLoop_nil_queue oracle max_pages fuel ⟨[], [], [], []⟩ rfl]
      exact ⟨rfl, rfl⟩

/-- Witness for C10: a language-marked wiki URL as crawl root. -/
theorem c10_witness :
    is_excluded_url "https://wiki.freecad.org/Main_Page/de".toList = true ∧
    ((crawl_wiki oracleFail 7 "https://wiki.freecad.org/Main_Page/de".toList
        10).1.pages = [] ∧
     (crawl_wiki oracleFail 7 "https://wiki.freecad.org/Main_Page/de".toList
        10).1.events = []) :=
  ⟨by decide,
    c10_excluded_root_no_fetch oracleFail 7
      "https://wiki.freecad.org/Main_Page/de".toList 10 (by decide)⟩

/-! ## Claim C9: page urls are pairwise distinct -/

theorem crawlLoop_pages_nodup (oracle : FetchOracle) (max_pages : Nat) :
    ∀ (fuel : Nat) (queue visited : List Str) (pages : List PageRec)
      (events : List CrawlEvent),
      (∀ p ∈ pages, p.url ∈ visited) →
      (pages.map PageRec.url).Nodup →
      (((crawlLoop oracle max_pages fuel
          ⟨queue, visited, pages, events⟩).1.pages.map PageRec.url)).Nodup := by
  intro fuel
  induction fuel with
  | zero => intro queue visited pages events _ h2; exact h2
  | succ fuel ih =>
    intro queue visited pages events h1 h2
    cases queue with
    | nil =>
      rw [crawlLoop_nil_queue oracle max_pages (fuel + 1) _ rfl]
      exact h2
    | cons url rest =>
      by_cases hb : max_pages ≤ visited.length
      · rw [crawlLoop_succ_budget oracle max_pages fuel url rest visited pages
          events hb]
        exact h2
      · rw [crawlLoop_succ_cons oracle max_pages fuel url rest visited pages
          events (Nat.not_le.mp hb)]
        by_cases hskip : url ∈ visited ∨ is_excluded_url url = true
        · rw [crawlStep_skip oracle url rest visited pages events hskip]
          exact ih rest visited pages events h1 h2
        · cases hf : oracle url with
          | none =>
            rw [crawlStep_fail oracle url rest visited pages events hskip hf]
            exact ih rest visited pages
              (events ++ [.fetching url, .fetchError url]) h1 h2
          | some f =>
            rw [crawlStep_success oracle url rest visited pages events f hskip hf]
            apply ih
            · intro p hp
              rcases List.mem_append.mp hp with hmem | hmem
              · exact List.mem_append_left _ (h1 p hmem)
              · simp only [List.mem_singleton] at hmem
                subst hmem
                simp
            · rw [List.map_append]
              simp only [List.map_cons, List.map_nil]
              refine List.Nodup.append h2 (List.nodup_singleton _) ?_
              intro a ha hb2
              simp only [List.mem_singleton] at hb2
              subst hb2
              obtain ⟨p, hp, hpu⟩ := List.mem_map.mp ha
              have hv := h1 p hp
              rw [hpu] at hv
              push_neg at hskip
              exact hskip.1 hv

/-- C9: the urls of the Page Records returned by a crawl are pairwise
distinct: a record is appended only in the iteration that adds its url to the
visited set, and visited urls are discarded at dequeue. -/
theorem c9_page_urls_nodup (oracle : FetchOracle) (fuel : Nat)
    (start_url : Str) (max_pages : Nat) :
    (((crawl_wiki oracle fuel start_url max_pages).1.pages.map
      PageRec.url)).Nodup := by
  unfold crawl_wiki
  exact crawlLoop_pages_nodup oracle max_pages fuel [start_url] [] [] []
    (by intro p hp; cases hp) (by simp)

/-! ## Claim C1: visitation idempotence -/

theorem fetchCount_append (ev1 ev2 : List CrawlEvent) (u : Str) :
    fetchCount (ev1 ++ ev2) u = fetchCount ev1 u + fetchCount ev2 u := by
  simp [fetchCount, List.countP_append]

theorem fetchCount_fail_batch (v u : Str) (h : v ≠ u) :
    fetchCount [CrawlEvent.fetching v, CrawlEvent.fetchError v] u = 0 := by
  simp [fetchCount, List.countP_cons, h]

theorem fetchCount_fetching_self (u : Str) :
    fetchCount [CrawlEvent.fetching u] u = 1 := by
  simp [fetchCount, List.countP_cons]

theorem fetchCount_fetching_ne (v u : Str) (h : v ≠ u) :
    fetchCount [CrawlEvent.fetching v] u = 0 := by
  simp [fetchCount, List.countP_cons, h]

theorem fetchCount_loop_le (oracle : FetchOracle) (max_pages : Nat) (u : Str)
    (f : Fetched) (hsucc : oracle u = some f) :
    ∀ (fuel : Nat) (queue visited : List Str) (pages : List PageRec)
      (events : List CrawlEvent),
      fetchCount (crawlLoop oracle max_pages fuel
          ⟨queue, visited, pages, events⟩).1.events u ≤
        fetchCount events u + (if u ∈ visited then 0 else 1) := by
  intro fuel
  induction fuel with
  | zero => intro q v pg ev; exact Nat.le_add_right _ _
  | succ fuel ih =>
    intro q v pg ev
    cases q with
    | nil =>
      rw [crawlLoop_nil_queue oracle max_pages (fuel + 1) _ rfl]
      exact Nat.le_add_right _ _
    | cons url rest =>
      by_cases hb : max_pages ≤ v.length
      · rw [crawlLoop_succ_budget oracle max_pages fuel url rest v pg ev hb]
        exact Nat.le_add_right _ _
      · rw [crawlLoop_succ_cons oracle max_pages fuel url rest v pg ev
          (Nat.not_le.mp hb)]
        by_cases hskip : url ∈ v ∨ is_excluded_url url = true
        · rw [crawlStep_skip oracle url rest v pg ev hskip]
          exact ih rest v pg ev
        · cases hf : oracle url with
          | none =>
            rw [crawlStep_fail oracle url rest v pg ev hskip hf]
            have hne : url ≠ u := by
              intro he
              rw [he, hsucc] at hf
              cases hf
            have h := ih rest v pg (ev ++ [.fetching url, .fetchError url])
            rw [fetchCount_append, fetchCount_fail_batch url u hne,
              Nat.add_zero] at h
            exact h
          | some f2 =>
            rw [crawlStep_success oracle url rest v pg ev f2 hskip hf]
            have h := ih (rest ++ enqueueLinks (v ++ [url]) f2.links) (v ++ [url])
              (pg ++ [⟨url, clean_text f2.text⟩]) (ev ++ [.fetching url])
            by_cases he : url = u
            · subst he
              have hnv : url ∉ v := by
                push_neg at hskip
                exact hskip.1
              rw [fetchCount_append, fetchCount_fetching_self,
                if_pos (by simp : url ∈ v ++ [url]), Nat.add_zero] at h
              rw [if_neg hnv]
              exact h
            · rw [fetchCount_append, fetchCount_fetching_ne url u he,
                Nat.add_zero] at h
              by_cases hu : u ∈ v
              · rw [if_pos (List.mem_append_left _ hu)] at h
                rw [if_pos hu]
                exact h
              · have hu2 : u ∉ v ++ [url] := by
                  intro hmem
                  rcases List.mem_append.mp hmem with hmem | hmem
                  · exact hu hmem
                  · simp only [List.mem_singleton] at hmem
                    exact he hmem.symm
                rw [if_neg hu2] at h
                rw [if_neg hu]
                exact h

/-- C1 counterexample: after processing the root, `urlB` sits twice in the
pending queue; its fetch fails each time, so it is passed to the HTTP GET
twice in one crawl — the claim's "at most once regardless of whether any
individual fetch of it succeeds or fails" is false on the code. -/
theorem c1_counterexample :
    (crawlLoop oracleDup 10 1 ⟨[urlA], [], [], []⟩).1.to_visit = [urlB, urlB] ∧
    fetchCount (crawl_wiki oracleDup 10 urlA 10).1.events urlB = 2 := by
  constructor
  · decide
  · decide

/-- C1 amended: a URL appearing any number of times in the pending queue is
fetched at most once provided its fetch succeeds (a successful fetch enters
the visited set, and later queue occurrences are discarded at dequeue); only
a URL whose fetch fails can be re-fetched for a later queue occurrence. -/
theorem c1_fetched_once_of_success (oracle : FetchOracle) (fuel : Nat)
    (start_url : Str) (max_pages : Nat) (u : Str) (f : Fetched)
    (hsucc : oracle u = some f) :
    fetchCount (crawl_wiki oracle fuel start_url max_pages).1.events u ≤ 1 := by
  unfold crawl_wiki
  have h := fetchCount_loop_le oracle max_pages u f hsucc fuel [start_url] [] [] []
  simpa [fetchCount] using h

/-- Witness for C1 amended: `urlA` succeeds under `oracleDup` and is fetched
at most once. -/
theorem c1_witness :
    oracleDup urlA = some ⟨[], [urlB, urlB]⟩ ∧
    fetchCount (crawl_wiki oracleDup 10 urlA 10).1.events urlA ≤ 1 :=
  ⟨by decide,
    c1_fetched_once_of_success oracleDup 10 urlA 10 urlA ⟨[], [urlB, urlB]⟩
      (by decide)⟩

/-! ## Claim C4: termination condition and page budget -/

theorem crawlLoop_flag_iff (oracle : FetchOracle) (max_pages : Nat) :
    ∀ (fuel : Nat) (st : CrawlSt),
      (crawlLoop oracle max_pages fuel st).2 = true ↔
        ((crawlLoop oracle max_pages fuel st).1.to_visit = [] ∨
          max_pages ≤ (crawlLoop oracle max_pages fuel st).1.visited.length) := by
  intro fuel
  induction fuel with
  | zero => intro st; simp [crawlLoop]
  | succ fuel ih =>
    intro st
    obtain ⟨q, v, pg, ev⟩ := st
    cases q with
    | nil =>
      rw [crawlLoop_nil_queue oracle max_pages (fuel + 1) _ rfl]
      simp
    | cons url rest =>
      by_cases hb : max_pages ≤ v.length
      · rw [crawlLoop_succ_budget oracle max_pages fuel url rest v pg ev hb]
        simpa using hb
      · rw [crawlLoop_succ_cons oracle max_pages fuel url rest v pg ev
          (Nat.not_le.mp hb)]
        exact ih _

theorem crawlLoop_visited_le (oracle : FetchOracle) (max_pages : Nat) :
    ∀ (fuel : Nat) (st : CrawlSt), st.visited.length ≤ max_pages →
      (crawlLoop oracle max_pages fuel st).1.visited.length ≤ max_pages := by
  intro fuel
  induction fuel with
  | zero => intro st h; exact h
  | succ fuel ih =>
    intro st h
    obtain ⟨q, v, pg, ev⟩ := st
    cases q with
    | nil =>
      rw [crawlLoop_nil_queue oracle max_pages (fuel + 1) _ rfl]
      exact h
    | cons url rest =>
      by_cases hb : max_pages ≤ v.length
      · rw [crawlLoop_succ_budget oracle max_pages fuel url rest v pg ev hb]
        exact h
      · rw [crawlLoop_succ_cons oracle max_pages fuel url rest v pg ev
          (Nat.not_le.mp hb)]
        by_cases hskip : url ∈ v ∨ is_excluded_url url = true
        · rw [crawlStep_skip oracle url rest v pg ev hskip]
          exact ih _ h
        · cases hf : oracle url with
          | none =>
            rw [crawlStep_fail oracle url rest v pg ev hskip hf]
            exact ih _ h
          | some f =>
            rw [crawlStep_success oracle url rest v pg ev f hskip hf]
            apply ih
            simp only [List.length_append, List.length_cons, List.length_nil]
            omega

theorem crawlLoop_terminates (oracle : FetchOracle) (max_pages : Nat) :
    ∀ (k q : Nat) (st : CrawlSt),
      max_pages - st.visited.length ≤ k → st.to_visit.length ≤ q →
      ∃ fuel, (crawlLoop oracle max_pages fuel st).2 = true := by
  intro k
  induction k with
  | zero =>
    intro q st hk _
    refine ⟨0, ?_⟩
    simp only [crawlLoop, decide_eq_true_eq]
    right
    omega
  | succ k ihk =>
    intro q
    induction q with
    | zero =>
      intro st hk hq
      refine ⟨0, ?_⟩
      simp only [crawlLoop, decide_eq_true_eq]
      left
      exact List.eq_nil_of_length_eq_zero (Nat.le_zero.mp hq)
    | succ q ihq =>
      intro st hk hq
      obtain ⟨qu, v, pg, ev⟩ := st
      replace hk : max_pages - v.length ≤ k + 1 := hk
      replace hq : qu.length ≤ q + 1 := hq
      cases qu with
      | nil => exact ⟨0, by simp [crawlLoop]⟩
      | cons url rest =>
        by_cases hb : max_pages ≤ v.length
        · exact ⟨0, by simp [crawlLoop]; omega⟩
        · have hb2 : v.length < max_pages := Nat.not_le.mp hb
          have hrest : rest.length ≤ q := by
            simp only [List.length_cons] at hq
            omega
          by_cases hskip : url ∈ v ∨ is_excluded_url url = true
          · obtain ⟨fuel, hfl⟩ := ihq ⟨rest, v, pg, ev⟩ hk hrest
            refine ⟨fuel + 1, ?_⟩
            rw [crawlLoop_succ_cons oracle max_pages fuel url rest v pg ev hb2,
              crawlStep_skip oracle url rest v pg ev hskip]
            exact hfl
          · cases hf : oracle url with
            | none =>
              obtain ⟨fuel, hfl⟩ := ihq
                ⟨rest, v, pg, ev ++ [.fetching url, .fetchError url]⟩ hk hrest
              refine ⟨fuel + 1, ?_⟩
              rw [crawlLoop_succ_cons oracle max_pages fuel url rest v pg ev hb2,
                crawlStep_fail oracle url rest v pg ev hskip hf]
              exact hfl
            | some f =>
              obtain ⟨fuel, hfl⟩ := ihk
                (rest ++ enqueueLinks (v ++ [url]) f.links).length
                ⟨rest ++ enqueueLinks (v ++ [url]) f.links, v ++ [url],
                  pg ++ [⟨url, clean_text f.text⟩], ev ++ [.fetching url]⟩
                (by
                  simp only [List.length_append, List.length_cons,
                    List.length_nil]
                  omega)
                le_rfl
              refine ⟨fuel + 1, ?_⟩
              rw [crawlLoop_succ_cons oracle max_pages fuel url rest v pg ev hb2,
                crawlStep_success oracle url rest v pg ev f hskip hf]
              exact hfl

/-- C4: for every crawl of one root with budget `max_pages`, the loop
terminates (some fuel makes the guard fail), the loop has exited normally
exactly when the pending queue is empty or the visited-set size has reached
`max_pages`, and the number of visited URLs never exceeds `max_pages` at any
point (i.e. after any fuel-truncated prefix) of the crawl. -/
theorem c4_termination_and_budget (oracle : FetchOracle) (start_url : Str)
    (max_pages : Nat) :
    (∃ fuel, (crawl_wiki oracle fuel start_url max_pages).2 = true) ∧
    (∀ fuel, (crawl_wiki oracle fuel start_url max_pages).2 = true ↔
      ((crawl_wiki oracle fuel start_url max_pages).1.to_visit = [] ∨
        max_pages ≤ (crawl_wiki oracle fuel start_url max_pages).1.visited.length)) ∧
    (∀ fuel, (crawl_wiki oracle fuel start_url max_pages).1.visited.length ≤
      max_pages) := by
  refine ⟨?_, ?_, ?_⟩
  · exact crawlLoop_terminates oracle max_pages max_pages 1
      ⟨[start_url], [], [], []⟩ (by simp) (by simp)
  · intro fuel
    exact crawlLoop_flag_iff oracle max_pages fuel _
  · intro fuel
    exact crawlLoop_visited_le oracle max_pages fuel _ (by simp)

/-! ## Claim C6: empty corpus aborts the pipeline -/

/-- C6: if the concatenated Page Record list over both roots is empty, the
orchestrator logs the abort message and returns without chunking and without
any persistence: no chunk list is built and `save_local` never runs. -/
theorem c6_empty_corpus_aborts (oracle : FetchOracle) (fuel : Nat)
    (hw : (crawl_wiki oracle fuel BASE_URL_WIKI 2000).1.pages = [])
    (hg : (crawl_wiki oracle fuel BASE_URL_GITHUB 450).1.pages = []) :
    build_vectorstore oracle fuel = ⟨[], true, none, false⟩ := by
  simp [build_vectorstore, hw, hg]

/-- Witness for C6: with every fetch failing, no pages are crawled from
either root and the pipeline aborts before chunking or saving. -/
theorem c6_witness :
    ((crawl_wiki oracleFail 2 BASE_URL_WIKI 2000).1.pages = [] ∧
      (crawl_wiki oracleFail 2 BASE_URL_GITHUB 450).1.pages = []) ∧
    build_vectorstore oracleFail 2 = ⟨[], true, none, false⟩ :=
  ⟨⟨by decide, by decide⟩,
    c6_empty_corpus_aborts oracleFail 2 (by decide) (by decide)⟩

/-! ## Claim C7: extracted text is clean -/

theorem strip_getLast?_not_space (s : Str) (c : Char)
    (hc : (strip s).getLast? = some c) : isPySpace c = false := by
  unfold strip at hc
  rw [List.getLast?_reverse] at hc
  have h := List.head?_dropWhile_not isPySpace ((s.dropWhile isPySpace).reverse)
  rw [hc] at h
  exact h

theorem strip_head?_not_space (s : Str) (c : Char)
    (hc : (strip s).head? = some c) : isPySpace c = false := by
  unfold strip at hc
  rw [List.head?_reverse] at hc
  have hsuf : ((s.dropWhile isPySpace).reverse.dropWhile isPySpace) <:+
      (s.dropWhile isPySpace).reverse := List.dropWhile_suffix isPySpace
  obtain ⟨pre, hpre⟩ := hsuf
  have hlast : ((s.dropWhile isPySpace).reverse).getLast? = some c := by
    rw [← hpre, List.getLast?_append, hc]
    rfl
  rw [List.getLast?_reverse] at hlast
  have h := List.head?_dropWhile_not isPySpace s
  rw [hlast] at h
  exact h

/-- C7: every line of the extracted clean text is nonempty and has no leading
or trailing whitespace, and the lines appear in the same top-to-bottom order
as in the source text: the cleaned line list is a sublist of the stripped
source lines, and the clean text is exactly their newline join. -/
theorem c7_clean_lines_shape (raw : Str) :
    (∀ l ∈ clean_lines raw, l ≠ [] ∧
      (∀ c, l.head? = some c → isPySpace c = false) ∧
      (∀ c, l.getLast? = some c → isPySpace c = false)) ∧
    List.Sublist (clean_lines raw) ((splitlines raw).map strip) ∧
    clean_text raw = List.intercalate ['\n'] (clean_lines raw) := by
  refine ⟨?_, List.filter_sublist _, rfl⟩
  intro l hl
  obtain ⟨hmem, hne⟩ := List.mem_filter.mp hl
  obtain ⟨l0, _, hl0⟩ := List.mem_map.mp hmem
  refine ⟨by simpa using hne, ?_, ?_⟩
  · intro c hc
    rw [← hl0] at hc
    exact strip_head?_not_space l0 c hc
  · intro c hc
    rw [← hl0] at hc
    exact strip_getLast?_not_space l0 c hc

/-- Witness for C7 on the raw text `" a \nb"`. -/
theorem c7_witness :
    ['a'] ∈ clean_lines (" a \nb".toList) ∧
    (['a'] ≠ [] ∧ (∀ c, List.head? ['a'] = some c → isPySpace c = false) ∧
      (∀ c, List.getLast? ['a'] = some c → isPySpace c = false)) :=
  ⟨by decide, (c7_clean_lines_shape (" a \nb".toList)).1 ['a'] (by decide)⟩

/-! ## Claim C3: language filtering is guarded by the wiki-host test -/

theorem containsSub_of_isPrefixOf (pat s : Str) (h : pat.isPrefixOf s = true) :
    containsSub pat s = true := by
  cases s with
  | nil => cases pat <;> simp_all [containsSub, List.isPrefixOf]
  | cons c rest => simp [containsSub, h]

theorem containsSub_append_left (pat pre s : Str)
    (h : containsSub pat s = true) : containsSub pat (pre ++ s) = true := by
  induction pre with
  | nil => simpa using h
  | cons c cs ih =>
    simp only [List.cons_append, containsSub, Bool.or_eq_true]
    exact Or.inr ih

theorem containsSub_self_append (pat rest : Str) :
    containsSub pat (pat ++ rest) = true :=
  containsSub_of_isPrefixOf _ _
    (List.isPrefixOf_iff_prefix.mpr (List.prefix_append _ _))

theorem wiki_sub_of_wikiDomain (url : Str) (h : wikiDomain url = true) :
    containsSub "wiki.freecad.org".toList (lowerStr url) = true := by
  unfold wikiDomain at h
  obtain ⟨rest, hrest⟩ := List.isPrefixOf_iff_prefix.mp h
  rw [← hrest]
  have hsplit : "https://wiki.freecad.org".toList =
      "https://".toList ++ "wiki.freecad.org".toList := by decide
  rw [hsplit, List.append_assoc]
  exact containsSub_append_left _ _ _ (containsSub_self_append _ _)

/-- C3 amended: for every URL carrying a language marker, `is_excluded_url`
returns true on the wiki domain; on the code-hosting domain it returns false
provided the URL has no asset/edit markers and does not contain the substring
"wiki.freecad.org" — the guard of the marker check is a case-insensitive
substring test for "wiki.freecad.org" anywhere in the URL, not a structural
domain parse, so a code-hosting URL embedding that substring is also
language-filtered. -/
theorem c3_lang_filter_domain_scoped (url : Str)
    (hmark : hasLangMarker url = true) :
    (wikiDomain url = true → is_excluded_url url = true) ∧
    (githubDomain url = true →
      containsSub "wiki.freecad.org".toList (lowerStr url) = false →
      hasAssetMarker url = false → is_excluded_url url = false) := by
  unfold hasLangMarker at hmark
  constructor
  · intro hw
    have hsub := wiki_sub_of_wikiDomain url hw
    have hcond : (containsSub "wiki.freecad.org".toList (lowerStr url) &&
        (LANG_IDENTIFIERS.any fun marker =>
          containsSub marker (lowerStr url))) = true := by
      rw [hsub, hmark]
      rfl
    simp only [is_excluded_url]
    rw [hcond]
    simp
  · intro _ hnsub hassets
    unfold hasAssetMarker at hassets
    have hcond : (containsSub "wiki.freecad.org".toList (lowerStr url) &&
        (LANG_IDENTIFIERS.any fun marker =>
          containsSub marker (lowerStr url))) = false := by
      rw [hnsub, Bool.false_and]
    simp only [is_excluded_url]
    rw [hcond]
    simp only [Bool.false_eq_true, if_false]
    exact hassets

/-- C3 counterexample: a code-hosting URL that embeds the wiki host name as a
path substring carries the "/de" language marker and no asset markers, yet
`is_excluded_url` returns true — the claim's promise that the marker check
never applies on the code-hosting domain is false on the code. -/
theorem c3_counterexample :
    githubDomain "https://github.com/shaise/wiki.freecad.org/de".toList = true ∧
    hasLangMarker "https://github.com/shaise/wiki.freecad.org/de".toList = true ∧
    hasAssetMarker "https://github.com/shaise/wiki.freecad.org/de".toList = false ∧
    is_excluded_url "https://github.com/shaise/wiki.freecad.org/de".toList = true :=
  ⟨by decide, by decide, by decide, by decide⟩

/-- Witness for C3 amended on one wiki URL and one code-hosting URL. -/
theorem c3_witness :
    (hasLangMarker "https://wiki.freecad.org/Sketcher/de".toList = true ∧
      wikiDomain "https://wiki.freecad.org/Sketcher/de".toList = true ∧
      is_excluded_url "https://wiki.freecad.org/Sketcher/de".toList = true) ∧
    (hasLangMarker "https://github.com/shaise/x/de".toList = true ∧
      githubDomain "https://github.com/shaise/x/de".toList = true ∧
      containsSub "wiki.freecad.org".toList
        (lowerStr "https://github.com/shaise/x/de".toList) = false ∧
      hasAssetMarker "https://github.com/shaise/x/de".toList = false ∧
      is_excluded_url "https://github.com/shaise/x/de".toList = false) :=
  ⟨⟨by decide, by decide,
      (c3_lang_filter_domain_scoped _ (by decide)).1 (by decide)⟩,
    ⟨by decide, by decide, by decide, by decide,
      (c3_lang_filter_domain_scoped _ (by decide)).2 (by decide) (by decide)
        (by decide)⟩⟩
